import Mathlib

/-!
Verification of the storage library (chartmuseum/storage fork).

The development shallowly embeds the Go sources: strings are modelled through
their character lists (`String.data`), Go `time.Time`/`time.Duration` values as
`Int` (nanoseconds), Go maps as association lists built by successive insertion,
and the S3/local-filesystem clients as explicit state (an S3 bucket is a list of
key/value pairs with injected copy/delete fault flags; a local directory handle
is the list of its not-yet-read entries).  Fallible operations return an
`Option StErr`/`Except StErr` value mirroring the Go `error` results.
-/

set_option maxHeartbeats 1600000

namespace Storage

/-! ### Character-level string primitives

Go's `path.Clean` processes a path as a sequence of `/`-separated elements
(its `lazybuf` loop walks the bytes, recognising empty, `.` and `..`
elements).  We embed it at that level: `splitChars` splits a character list on
`'/'` (this is also the embedding of Go `strings.Split(s, "/")`),
`segsToChars` rejoins segments with `'/'` (Go `strings.Join(elems, "/")`),
and `cleanChars` runs the element-wise stack algorithm of `path.Clean`. -/

def splitChars : List Char → List (List Char)
  | [] => [[]]
  | c :: cs =>
    if c = '/' then [] :: splitChars cs
    else
      match splitChars cs with
      | [] => [[c]]
      | s :: rest => (c :: s) :: rest

def segsToChars : List (List Char) → List Char
  | [] => []
  | [s] => s
  | s :: s2 :: rest => s ++ '/' :: segsToChars (s2 :: rest)

/-- One step of `path.Clean`'s element processing: empty and `.` elements are
dropped; `..` pops the last output element when possible (when rooted, a `..`
at the top is dropped; when not rooted it is kept); any other element is
pushed.  `acc` is the output stack, most recent element first. -/
def cleanStepChars (rooted : Bool) (acc : List (List Char)) (seg : List Char) :
    List (List Char) :=
  if seg = [] ∨ seg = ['.'] then acc
  else if seg = ['.', '.'] then
    match acc with
    | [] => if rooted then [] else [seg]
    | a :: rest => if a = ['.', '.'] then seg :: a :: rest else rest
  else seg :: acc

/-- Go `path.Clean`, on character lists. -/
def cleanChars (l : List Char) : List Char :=
  if l = [] then ['.']
  else
    let rooted : Bool := match l with | c :: _ => c == '/' | [] => false
    let stack := ((splitChars l).foldl (cleanStepChars rooted) []).reverse
    let out := segsToChars stack
    if rooted then '/' :: out
    else if out = [] then ['.'] else out

/-- Go `path.Clean`. -/
def clean (s : String) : String := String.mk (cleanChars s.data)

/-- Go `path.Join` (variadic): skip to the first non-empty element, join the
remaining elements with `/` and clean the result; all-empty input gives `""`. -/
def goJoinChars : List (List Char) → List Char
  | [] => []
  | e :: rest => if e = [] then goJoinChars rest else cleanChars (segsToChars (e :: rest))

/-- `pathutil.Join(a, b)`. -/
def goJoin2 (a b : String) : String := String.mk (goJoinChars [a.data, b.data])

/-- `pathutil.Join(a, b, c)`. -/
def goJoin3 (a b c : String) : String := String.mk (goJoinChars [a.data, b.data, c.data])

def trimSlashesChars (l : List Char) : List Char :=
  ((l.dropWhile (· == '/')).reverse.dropWhile (· == '/')).reverse

/-- `cleanPrefix(prefix)` from the source: `strings.Trim(prefix, "/")`. -/
def cleanPrefix (s : String) : String := String.mk (trimSlashesChars s.data)

/-- `l₁` is an initial segment of `l₂` (Go `strings.HasPrefix` on char lists). -/
def leadsChars : List Char → List Char → Bool
  | [], _ => true
  | _ :: _, [] => false
  | a :: as, b :: bs => a == b && leadsChars as bs

/-- `removePrefixFromObjectPath(prefix, path)` from the source: append a `/`
to the prefix when it does not already end in one, then `strings.TrimPrefix`. -/
def removePrefixFromObjectPath (pfx path : String) : String :=
  if pfx.data = [] then path
  else
    let p2 := if pfx.data.getLast? = some '/' then pfx.data else pfx.data ++ ['/']
    if leadsChars p2 path.data then String.mk (path.data.drop p2.length) else path

/-- `objectPathIsInvalid(path)` from the source:
`strings.Contains(path, "/") || path == ""`. -/
def objectPathIsInvalid (path : String) : Bool :=
  path.data.any (fun c => c == '/') || path.data.isEmpty

/-- The inline normalisation in the S3 pager:
`if !strings.HasPrefix(p, "/") { p = "/" + p }`. -/
def ensureLeadingSlash (p : String) : String :=
  match p.data with
  | '/' :: _ => p
  | _ => String.mk ('/' :: p.data)

/-! ### Data model (`Object`, `Metadata`, `ObjectSliceDiff`) -/

structure Metadata where
  path : String
  lastModified : Int
deriving DecidableEq, Repr

structure Object where
  path : String
  lastModified : Int
  content : List Nat
deriving DecidableEq, Repr

structure ObjectSliceDiff where
  change : Bool
  removed : List Object
  added : List Object
  updated : List Object
deriving DecidableEq, Repr

/-! ### `GetObjectSliceDiff`

The Go function builds one `map[string]Object` per slice by successive
insertion (later entries overwrite earlier ones); we model the map as an
association list consed in insertion order, looked up by first match, which
gives the same overwrite semantics. -/

def buildMap (objs : List Object) : List (String × Object) :=
  objs.foldl (fun m o => (o.path, o) :: m) []

def mapFind (m : List (String × Object)) (k : String) : Option Object :=
  (m.find? (fun kv => kv.1 == k)).map (·.2)

/-- `GetObjectSliceDiff(prev, curr, timestampTolerance)` from the source.  The
single Go loop over `prev` appends to `Updated` (path found in `curr`'s map
with a delta strictly above the tolerance) or to `Removed` (path absent);
the loop over `curr` appends to `Added` the paths absent from `prev`'s map. -/
def GetObjectSliceDiff (prev curr : List Object) (timestampTolerance : Int) :
    ObjectSliceDiff :=
  let pos := buildMap prev
  let cos := buildMap curr
  let updated := prev.filterMap (fun p =>
    match mapFind cos p.path with
    | some c =>
      if c.lastModified - p.lastModified > timestampTolerance then some c else none
    | none => none)
  let removed := prev.filter (fun p => (mapFind cos p.path).isNone)
  let added := curr.filter (fun c => (mapFind pos c.path).isNone)
  { change := decide (0 < removed.length + added.length + updated.length),
    removed := removed, added := added, updated := updated }

/-! ### Conditional delivery: success-status resolution

`HandleHttpFileDownload`'s success path starts from `httpStatus := 200` and
escalates to `206` only inside the `ContentRange != nil` branch, guarded by
`len(*ContentRange) > 0 && ContentLength != nil`, after splitting the header
on `/`, trimming the second component and parsing it as a base-10 `int64`. -/

/-- Go `unicode.IsSpace` restricted to the code points it recognises in the
Latin-1 range (the ones `strings.TrimSpace` can meet here). -/
def isGoSpace (c : Char) : Bool :=
  c == ' ' || c == '\t' || c == '\n' || c == '\x0b' || c == '\x0c' || c == '\r' ||
  c == '\x85' || c == '\xa0'

/-- Go `strings.TrimSpace`. -/
def trimSpace (s : String) : String :=
  String.mk (((s.data.dropWhile isGoSpace).reverse.dropWhile isGoSpace).reverse)

/-- Go `strings.Split(s, "/")`. -/
def splitOnSlash (s : String) : List String := (splitChars s.data).map (fun l => String.mk l)

def digitVal (c : Char) : Nat := c.toNat - '0'.toNat

/-- Go `strconv.ParseInt(s, 10, 64)`: optional sign, non-empty run of decimal
digits, error (`none`) on anything else or on overflow past the int64 range. -/
def parseInt64 (s : String) : Option Int :=
  match s.data with
  | [] => none
  | c :: rest =>
    let signed : Bool × List Char :=
      if c = '-' then (true, rest)
      else if c = '+' then (false, rest)
      else (false, c :: rest)
    let neg := signed.1
    let ds := signed.2
    if ds = [] then none
    else if ds.all (fun d => d.isDigit) then
      let n : Nat := ds.foldl (fun acc d => acc * 10 + digitVal d) 0
      if neg then
        if n ≤ 9223372036854775808 then some (-(n : Int)) else none
      else
        if n < 9223372036854775808 then some (n : Int) else none
    else none

/-- The status resolution of `HandleHttpFileDownload`'s success path
(`httpStatus` in the source), as a function of the backend-supplied
`Content-Range` and `Content-Length` response fields. -/
def resolveHttpStatus (contentRange : Option String) (contentLength : Option Int) : Nat :=
  match contentRange with
  | none => 200
  | some cr =>
    if 0 < cr.data.length then
      match contentLength with
      | none => 200
      | some cl =>
        match splitOnSlash cr with
        | _ :: t :: _ =>
          match parseInt64 (trimSpace t) with
          | some totalSize => if totalSize = cl then 200 else 206
          | none => 200
        | _ => 200
    else 200

/-- The total-size component of a `Content-Range` header, as the code reads
it: the part after the first `/`, space-trimmed, parsed as an `int64`. -/
def contentRangeTotalSize (cr : String) : Option Int :=
  match splitOnSlash cr with
  | _ :: t :: _ => parseInt64 (trimSpace t)
  | _ => none

/-! ### Error taxonomy

Distinct Go error values become distinct constructors: the three sentinels of
`errors.go`, `io.EOF`, the two ad-hoc `errors.New` values of the pagers and the
local backend, and the vendor-call failures of the S3 client model. -/

inductive StErr where
  | prefixIsAnObject
  | newPathNotEmpty
  | notImplemented
  | eof
  | doubleAdvance
  | notADirectory
  | noSuchKey (key : String)
  | copyFailed (src dst : String)
  | deleteFailed (key : String)
  | awsError (code : String)
deriving DecidableEq, Repr

/-! ### The S3 store model (for `RenamePrefixOrObject` / `moveObject`)

A bucket is a list of key/payload pairs (payloads are opaque `Int`s).
`copyFail`/`deleteFail` inject vendor-call failures for the copy and delete
primitives, so that the partial-failure behaviour of `moveObject` can be
stated.  `HeadObject` on this model either finds the key or reports
`NotFound`; transport faults of head/list calls are not modelled. -/

structure S3State where
  objs : List (String × Int)
  copyFail : String → String → Bool
  deleteFail : String → Bool

def s3lookup (st : S3State) (k : String) : Option Int :=
  (st.objs.find? (fun kv => kv.1 == k)).map (·.2)

/-- The keys of the store under a byte-wise key prefix, in store order (what a
`ListObjectsV2` with that `Prefix` enumerates). -/
def keysUnder (st : S3State) (pfx : String) : List String :=
  (st.objs.filter (fun kv => leadsChars pfx.data kv.1.data)).map (·.1)

/-- The `KeyCount` a 1-item `ListObjectsV2` probe reports as positive iff any
object exists under the prefix. -/
def countKeysUnder (st : S3State) (pfx : String) : Nat := (keysUnder st pfx).length

def s3put (objs : List (String × Int)) (k : String) (v : Int) : List (String × Int) :=
  objs.filter (fun kv => kv.1 != k) ++ [(k, v)]

/-- `b.Client.CopyObject`: copies `src`'s payload to `dst`; fails when the
injected fault flag is set, or when the source key does not exist. -/
def copyObjectClient (st : S3State) (src dst : String) : Option StErr × S3State :=
  if st.copyFail src dst then (some (.copyFailed src dst), st)
  else
    match s3lookup st src with
    | none => (some (.noSuchKey src), st)
    | some v => (none, { st with objs := s3put st.objs dst v })

/-- `AmazonS3Backend.DeleteObject(path)`: deletes
`cleanPrefix(Join(b.Prefix, path))`; note the prefix join happens here even
when the caller already passes a full key. -/
def DeleteObject (bPfx : String) (st : S3State) (path : String) : S3State × Option StErr :=
  let key := cleanPrefix (goJoin2 bPfx path)
  if st.deleteFail key then (st, some (.deleteFailed key))
  else ({ st with objs := st.objs.filter (fun kv => kv.1 != key) }, none)

/-- `AmazonS3Backend.moveObject(path, newPath)`: one `CopyObject` to `newPath`
followed, only on success, by `b.DeleteObject(path)`. -/
def moveObject (bPfx : String) (st : S3State) (path newPath : String) :
    S3State × Option StErr :=
  match copyObjectClient st path newPath with
  | (some e, st2) => (st2, some e)
  | (none, st2) => DeleteObject bPfx st2 path

/-- The pagination loop of `RenamePrefixOrObject`'s directory branch: move
every listed key in order, stopping at the first failure.  (The model's list
client returns the whole listing in one page, so the Go `for !isEof` loop
makes a single pass.) -/
def moveAll (bPfx newPath srcPfx : String) :
    List String → S3State → S3State × Option StErr
  | [], st => (st, none)
  | k :: rest, st =>
    if k = "" then moveAll bPfx newPath srcPfx rest st
    else
      let key := removePrefixFromObjectPath srcPfx k
      if key = "" ∨ key = "/" then moveAll bPfx newPath srcPfx rest st
      else
        match moveObject bPfx st k (cleanPrefix (goJoin3 bPfx newPath key)) with
        | (st2, none) => moveAll bPfx newPath srcPfx rest st2
        | (st2, some e) => (st2, some e)

/-- `AmazonS3Backend.RenamePrefixOrObject(path, newPath)`: reject when
`newPath` heads to an object or a 1-item listing under `newPath + "/"` is
non-empty; then move the single object at `path`, or every object under
`path + "/"`. -/
def RenamePrefixOrObject (bPfx : String) (st : S3State) (path newPath : String) :
    S3State × Option StErr :=
  let newKey := cleanPrefix (goJoin2 bPfx newPath)
  if (s3lookup st newKey).isSome then (st, some .newPathNotEmpty)
  else if 0 < countKeysUnder st (newKey ++ "/") then (st, some .newPathNotEmpty)
  else
    let oldKey := cleanPrefix (goJoin2 bPfx path)
    if (s3lookup st oldKey).isSome then
      moveObject bPfx st oldKey newKey
    else
      let srcPfx := oldKey ++ "/"
      moveAll bPfx newPath srcPfx (keysUnder st srcPfx) st

/-! ### The S3 directory pager

The `ListObjectsV2` client is kept abstract (a function from the request to a
result or an error): the pager's behaviour is proved for every client
response, which is what the Go code facing an arbitrary AWS answer does. -/

structure ListV2Input where
  bucket : String
  pfx : String
  delimiter : Option String
  maxKeys : Option Int
  continuationToken : Option String
deriving DecidableEq, Repr

structure ListV2Entry where
  key : Option String
  lastModified : Option Int
deriving DecidableEq, Repr

structure ListV2Output where
  contents : List ListV2Entry
  commonPrefixes : List (Option String)
  isTruncated : Option Bool
  nextContinuationToken : Option String
deriving DecidableEq, Repr

abbrev S3Client := ListV2Input → Except StErr ListV2Output

/-- `s3ListObjectsFromDirectoryOutput`: the per-page cursor state. -/
structure S3Page where
  bucket : String
  bPfx : String
  pfx : String
  limit : Int
  filesRead : List Metadata
  directoriesRead : List Metadata
  nextPageCalled : Bool
  isEOF : Bool
  continuationToken : String
deriving DecidableEq, Repr

/-- The `ListObjectsV2Input` a page's `NextPage` issues. -/
def s3PageRequest (l : S3Page) : ListV2Input :=
  { bucket := l.bucket
    pfx := cleanPrefix (goJoin2 l.bPfx l.pfx) ++ "/"
    delimiter := some "/"
    maxKeys := some l.limit
    continuationToken := if l.continuationToken = "" then none else some l.continuationToken }

/-- How `NextPage` turns one `CommonPrefixes` entry into a directory
`Metadata` (or drops it). -/
def s3DirEntry (bPfx : String) (d : Option String) : Option Metadata :=
  match d with
  | some s =>
    if s = "" then none
    else
      let p := ensureLeadingSlash (removePrefixFromObjectPath bPfx s)
      if p = "" ∨ p = "/" then none else some { path := p, lastModified := 0 }
  | none => none

/-- How `NextPage` turns one `Contents` entry into a file `Metadata` (or
drops it); a missing `LastModified` leaves the zero value. -/
def s3FileEntry (bPfx : String) (f : ListV2Entry) : Option Metadata :=
  match f.key with
  | some k =>
    if k = "" then none
    else
      let p := ensureLeadingSlash (removePrefixFromObjectPath bPfx k)
      if p = "" ∨ p = "/" then none
      else some { path := p
                  lastModified := match f.lastModified with | some t => t | none => 0 }
  | none => none

/-- `s3ListObjectsFromDirectoryOutput.NextPage()`.  The result is the pair the
call returns (successor page and error) together with the receiver after the
call (Go mutates `l.nextPageCalled` in place). -/
def s3NextPage (client : S3Client) (l : S3Page) :
    (Option S3Page × Option StErr) × S3Page :=
  if l.nextPageCalled then ((none, some .doubleAdvance), l)
  else
    let r0 : S3Page :=
      { bucket := l.bucket, bPfx := l.bPfx, pfx := l.pfx, limit := l.limit
        filesRead := [], directoriesRead := []
        nextPageCalled := false, isEOF := false, continuationToken := "" }
    if l.isEOF then ((some { r0 with isEOF := true }, some .eof), l)
    else
      match client (s3PageRequest l) with
      | .error e => ((none, some e), l)
      | .ok output =>
        let ct := match output.nextContinuationToken with
          | some t => t
          | none => ""
        let dirs := output.commonPrefixes.filterMap (s3DirEntry l.bPfx)
        let files := output.contents.filterMap (s3FileEntry l.bPfx)
        let pageEOF : Bool := match output.isTruncated with
          | some b => !b
          | none => true
        let r := { r0 with
          continuationToken := ct
          directoriesRead := dirs
          filesRead := files
          isEOF := pageEOF }
        ((some r, if pageEOF then some .eof else none), { l with nextPageCalled := true })

/-- The outcome of the `HeadObject` probe at the top of the S3
`ListObjectsFromDirectory`: success, an AWS error with a code, or a non-AWS
error (which the Go type assertion lets fall through). -/
inductive HeadOutcome where
  | found
  | awsErr (code : String)
  | plainErr
deriving DecidableEq, Repr

/-- `AmazonS3Backend.ListObjectsFromDirectory(prefix, limit)`. -/
def s3ListObjectsFromDirectory (head : String → HeadOutcome) (client : S3Client)
    (bucket bPfx : String) (pfx : String) (limit : Int) :
    Option S3Page × Option StErr :=
  let key := cleanPrefix (goJoin2 bPfx pfx)
  let page0 : S3Page :=
    { bucket := bucket, bPfx := bPfx, pfx := pfx, limit := limit
      filesRead := [], directoriesRead := []
      nextPageCalled := false, isEOF := false, continuationToken := "" }
  match head key with
  | .found => (none, some .prefixIsAnObject)
  | .awsErr code =>
    if code = "NotFound" then (s3NextPage client page0).1
    else (none, some (.awsError code))
  | .plainErr => (s3NextPage client page0).1

/-! ### The local-filesystem model

A filesystem is a list of file paths plus a list of directories, each carrying
its entry list; an open directory handle is the list of its not-yet-read
entries (`os.File.ReadDir`'s cursor). -/

structure DirEntry where
  name : String
  isDir : Bool
deriving DecidableEq, Repr

structure LocalFS where
  files : List String
  dirs : List (String × List DirEntry)
deriving DecidableEq, Repr

def fsIsDir (fs : LocalFS) (p : String) : Bool :=
  (fs.dirs.find? (fun d => d.1 == p)).isSome

def fsExists (fs : LocalFS) (p : String) : Bool :=
  fs.files.contains p || fsIsDir fs p

def fsChildren (fs : LocalFS) (p : String) : List DirEntry :=
  match fs.dirs.find? (fun d => d.1 == p) with
  | some d => d.2
  | none => []

/-- `localListObjectsFromDirectoryOutput`: the per-page cursor state;
`remaining` is the shared `*os.File` read cursor. -/
structure LocalPage where
  pfx : String
  remaining : List DirEntry
  limit : Int
  filesRead : List Metadata
  directoriesRead : List Metadata
  nextPageCalled : Bool
  isEOF : Bool
deriving DecidableEq, Repr

/-- `os.File.ReadDir(n)`: for `n > 0` read at most `n` entries, reporting
`io.EOF` exactly when zero entries remain; for `n <= 0` read everything with a
nil error.  Returns (entries, error, rest of the cursor). -/
def readDir (remaining : List DirEntry) (limit : Int) :
    List DirEntry × Option StErr × List DirEntry :=
  if 0 < limit then
    if (remaining.take limit.toNat).length = 0 then ([], some .eof, remaining)
    else (remaining.take limit.toNat, none, remaining.drop limit.toNat)
  else (remaining, none, [])

/-- `localListObjectsFromDirectoryOutput.NextPage()`; as for S3, the result
pair comes with the receiver after the call. -/
def localNextPage (l : LocalPage) : (Option LocalPage × Option StErr) × LocalPage :=
  if l.nextPageCalled then ((none, some .doubleAdvance), l)
  else
    let r0 : LocalPage :=
      { pfx := l.pfx, remaining := l.remaining, limit := l.limit
        filesRead := [], directoriesRead := [], nextPageCalled := false, isEOF := false }
    if l.isEOF then ((some { r0 with isEOF := true }, some .eof), l)
    else
      let rd := readDir l.remaining l.limit
      let entries := rd.1
      let rdErr := rd.2.1
      let dirs := (entries.filter (fun e => e.isDir)).map
        (fun e => ({ path := goJoin2 l.pfx e.name, lastModified := 0 } : Metadata))
      let files := (entries.filter (fun e => !e.isDir)).map
        (fun e => ({ path := goJoin2 l.pfx e.name, lastModified := 0 } : Metadata))
      let pageEOF : Bool := (decide (0 < l.limit) && rdErr == some .eof) ||
                            (decide (l.limit ≤ 0) && rdErr == none)
      let err := if pageEOF && rdErr == none then some StErr.eof else rdErr
      let r := { r0 with
        remaining := rd.2.2
        directoriesRead := dirs
        filesRead := files
        isEOF := pageEOF }
      ((some r, err), { l with nextPageCalled := true })

/-- `LocalFilesystemBackend.ListObjectsFromDirectory(prefix, limit)`: a
missing directory yields an immediately-exhausted page with a nil error; an
existing non-directory yields the `errors.New("prefix is not a directory")`
failure; otherwise the opened handle's first `NextPage` result. -/
def localListObjectsFromDirectory (fs : LocalFS) (root pfx : String) (limit : Int) :
    Option LocalPage × Option StErr :=
  let full := goJoin2 root pfx
  if !fsExists fs full then
    (some { pfx := pfx, remaining := [], limit := limit, filesRead := [],
            directoriesRead := [], nextPageCalled := false, isEOF := true }, none)
  else if !fsIsDir fs full then (none, some .notADirectory)
  else
    (localNextPage { pfx := pfx, remaining := fsChildren fs full, limit := limit,
                     filesRead := [], directoriesRead := [],
                     nextPageCalled := false, isEOF := false }).1

/-! ## Lemmas about the Go-map model -/

theorem foldl_cons_path (l : List Object) (acc : List (String × Object)) :
    l.foldl (fun m o => (o.path, o) :: m) acc =
      (l.map (fun o => (o.path, o))).reverse ++ acc := by
  induction l generalizing acc with
  | nil => simp
  | cons a t ih => simp [List.foldl_cons, ih]

theorem buildMap_eq (l : List Object) :
    buildMap l = (l.map (fun o => (o.path, o))).reverse := by
  simpa using foldl_cons_path l []

theorem mapFind_mem {m : List (String × Object)} {k : String} {o : Object}
    (h : mapFind m k = some o) : (k, o) ∈ m := by
  unfold mapFind at h
  cases hf : m.find? (fun kv => kv.1 == k) with
  | none => simp [hf] at h
  | some kv =>
    simp only [hf, Option.map_some'] at h
    have hmem := List.mem_of_find?_eq_some hf
    have hp := List.find?_some hf
    have h1 : kv.1 = k := by simpa using hp
    have : kv = (k, o) := by
      cases kv
      simp_all
    rw [this] at hmem
    exact hmem

theorem mapFind_buildMap_some {l : List Object} {k : String} {o : Object}
    (h : mapFind (buildMap l) k = some o) : o ∈ l ∧ o.path = k := by
  have hmem := mapFind_mem h
  rw [buildMap_eq] at hmem
  rw [List.mem_reverse, List.mem_map] at hmem
  obtain ⟨x, hx, hxe⟩ := hmem
  obtain ⟨h1, h2⟩ := Prod.mk.injEq .. ▸ hxe
  exact ⟨h2 ▸ hx, h2 ▸ h1⟩

theorem mapFind_none_iff {m : List (String × Object)} {k : String} :
    mapFind m k = none ↔ ∀ kv ∈ m, kv.1 ≠ k := by
  unfold mapFind
  rw [Option.map_eq_none']
  rw [List.find?_eq_none]
  constructor
  · intro h kv hkv
    have := h kv hkv
    simpa using this
  · intro h kv hkv
    simpa using h kv hkv

theorem mapFind_buildMap_none {l : List Object} {k : String} :
    mapFind (buildMap l) k = none ↔ ∀ o ∈ l, o.path ≠ k := by
  rw [mapFind_none_iff, buildMap_eq]
  constructor
  · intro h o ho
    exact h (o.path, o) (by rw [List.mem_reverse, List.mem_map]; exact ⟨o, ho, rfl⟩)
  · rintro h kv hkv
    rw [List.mem_reverse, List.mem_map] at hkv
    obtain ⟨x, hx, rfl⟩ := hkv
    exact h x hx

theorem mapFind_buildMap_of_nodup {l : List Object} (hnd : (l.map Object.path).Nodup)
    {k : String} {o : Object} (ho : o ∈ l) (hk : o.path = k) :
    mapFind (buildMap l) k = some o := by
  cases hf : mapFind (buildMap l) k with
  | none =>
    rw [mapFind_buildMap_none] at hf
    exact absurd hk (hf o ho)
  | some o2 =>
    obtain ⟨ho2, hk2⟩ := mapFind_buildMap_some hf
    have : o2 = o :=
      List.inj_on_of_nodup_map hnd ho2 ho (by rw [hk2, hk])
    rw [this]

/-! ## Membership in the three diff lists -/

theorem mem_diff_removed {prev curr : List Object} {tol : Int} {x : Object} :
    x ∈ (GetObjectSliceDiff prev curr tol).removed ↔
      x ∈ prev ∧ mapFind (buildMap curr) x.path = none := by
  show x ∈ prev.filter _ ↔ _
  rw [List.mem_filter]
  simp [Option.isNone_iff_eq_none]

theorem mem_diff_added {prev curr : List Object} {tol : Int} {x : Object} :
    x ∈ (GetObjectSliceDiff prev curr tol).added ↔
      x ∈ curr ∧ mapFind (buildMap prev) x.path = none := by
  show x ∈ curr.filter _ ↔ _
  rw [List.mem_filter]
  simp [Option.isNone_iff_eq_none]

theorem mem_diff_updated {prev curr : List Object} {tol : Int} {u : Object} :
    u ∈ (GetObjectSliceDiff prev curr tol).updated ↔
      ∃ p ∈ prev, mapFind (buildMap curr) p.path = some u ∧
        u.lastModified - p.lastModified > tol := by
  show u ∈ prev.filterMap _ ↔ _
  rw [List.mem_filterMap]
  constructor
  · rintro ⟨p, hp, he⟩
    refine ⟨p, hp, ?_⟩
    cases hf : mapFind (buildMap curr) p.path with
    | none => rw [hf] at he; simp at he
    | some c =>
      rw [hf] at he
      by_cases hgt : c.lastModified - p.lastModified > tol
      · simp only [hgt, if_pos] at he
        cases he
        exact ⟨rfl, hgt⟩
      · simp only [hgt, if_neg, not_false_iff] at he
        simp at he
  · rintro ⟨p, hp, hf, hgt⟩
    exact ⟨p, hp, by rw [hf]; simp [hgt]⟩

/-- **C9.** For every pair of snapshots and every tolerance, each path appears
in at most one of the three lists `Removed`, `Added`, `Updated` of
`GetObjectSliceDiff`: removed paths are absent from the current snapshot,
added paths are absent from the previous one, and updated paths are present
in both, so the three path sets are pairwise disjoint. -/
theorem diff_lists_path_disjoint (prev curr : List Object) (tol : Int) :
    (∀ x ∈ (GetObjectSliceDiff prev curr tol).removed,
       ∀ y ∈ (GetObjectSliceDiff prev curr tol).added, x.path ≠ y.path) ∧
    (∀ x ∈ (GetObjectSliceDiff prev curr tol).removed,
       ∀ u ∈ (GetObjectSliceDiff prev curr tol).updated, x.path ≠ u.path) ∧
    (∀ y ∈ (GetObjectSliceDiff prev curr tol).added,
       ∀ u ∈ (GetObjectSliceDiff prev curr tol).updated, y.path ≠ u.path) := by
  refine ⟨?_, ?_, ?_⟩
  · intro x hx y hy
    rw [mem_diff_removed] at hx
    rw [mem_diff_added] at hy
    rw [mapFind_buildMap_none] at hx
    intro he
    exact hx.2 y hy.1 he.symm
  · intro x hx u hu
    rw [mem_diff_removed] at hx
    rw [mem_diff_updated] at hu
    obtain ⟨p, _, hf, _⟩ := hu
    obtain ⟨hc, hpath⟩ := mapFind_buildMap_some hf
    rw [mapFind_buildMap_none] at hx
    intro he
    exact hx.2 u hc (by rw [← he])
  · intro y hy u hu
    rw [mem_diff_added] at hy
    rw [mem_diff_updated] at hu
    obtain ⟨p, hp, hf, _⟩ := hu
    obtain ⟨_, hpath⟩ := mapFind_buildMap_some hf
    rw [mapFind_buildMap_none] at hy
    intro he
    exact hy.2 p hp (by rw [← hpath, ← he])

/-- **C1 (amended).**  For path-distinct snapshots and every *non-negative*
tolerance `t`, `GetObjectSliceDiff` appends a current object to `Updated`
exactly when its path is present in both snapshots and the last-modified
delta is strictly greater than `t`; and a path present in both whose delta is
at most `t` — in particular any zero or negative delta — appears in none of
the three lists. -/
theorem diff_updated_rule (prev curr : List Object) (tol : Int)
    (hp : (prev.map Object.path).Nodup) (hc : (curr.map Object.path).Nodup)
    (ht : 0 ≤ tol) :
    (∀ c, c ∈ (GetObjectSliceDiff prev curr tol).updated ↔
       (c ∈ curr ∧ ∃ p ∈ prev, p.path = c.path ∧
         c.lastModified - p.lastModified > tol)) ∧
    (∀ p ∈ prev, ∀ c ∈ curr, c.path = p.path →
       (c.lastModified - p.lastModified ≤ tol ∨ c.lastModified - p.lastModified ≤ 0) →
       ((∀ x ∈ (GetObjectSliceDiff prev curr tol).removed, x.path ≠ p.path) ∧
        (∀ x ∈ (GetObjectSliceDiff prev curr tol).added, x.path ≠ p.path) ∧
        (∀ x ∈ (GetObjectSliceDiff prev curr tol).updated, x.path ≠ p.path))) := by
  constructor
  · intro c
    rw [mem_diff_updated]
    constructor
    · rintro ⟨p, hpmem, hf, hgt⟩
      obtain ⟨hcmem, hcpath⟩ := mapFind_buildMap_some hf
      exact ⟨hcmem, p, hpmem, hcpath.symm, hgt⟩
    · rintro ⟨hcmem, p, hpmem, hpath, hgt⟩
      exact ⟨p, hpmem, mapFind_buildMap_of_nodup hc hcmem hpath.symm, hgt⟩
  · intro p hpmem c hcmem hpath hle
    have hδ : c.lastModified - p.lastModified ≤ tol := by
      rcases hle with h | h
      · exact h
      · exact le_trans h ht
    refine ⟨?_, ?_, ?_⟩
    · intro x hx he
      rw [mem_diff_removed, mapFind_buildMap_none] at hx
      exact hx.2 c hcmem (by rw [hpath, ← he])
    · intro x hx he
      rw [mem_diff_added, mapFind_buildMap_none] at hx
      exact hx.2 p hpmem (by rw [← he])
    · intro x hx he
      rw [mem_diff_updated] at hx
      obtain ⟨q, hq, hf, hgt⟩ := hx
      obtain ⟨hxmem, hxpath⟩ := mapFind_buildMap_some hf
      -- q is a previous object with q.path = x.path = p.path, so q = p by nodup
      have hq_p : q = p :=
        List.inj_on_of_nodup_map hp hq hpmem (by rw [← hxpath, he])
      -- x is a current object with x.path = c.path, so x = c by nodup
      have hx_c : x = c :=
        List.inj_on_of_nodup_map hc hxmem hcmem (by rw [he, ← hpath])
      rw [hq_p, hx_c] at hgt
      exact absurd hδ (not_le.mpr hgt)

/-- Counterexample to **C1** as stated: with a negative tolerance, a pair with
a *zero* delta is still appended to `Updated` (`0 > -1`), although the claim
says a zero or negative delta leaves the path out of all three lists. -/
theorem diff_updated_rule_cex :
    (GetObjectSliceDiff [⟨"a", 5, []⟩] [⟨"a", 5, []⟩] (-1)).updated =
      [⟨"a", 5, []⟩] ∧ ((5 : Int) - 5 ≤ 0) := by
  constructor
  · rfl
  · decide

/-- Witness for `diff_updated_rule` at the spec's own example
(`previous=[a@0]`, `current=[a@5]`, tolerance `10`). -/
theorem diff_updated_rule_witness :
    ((([⟨"a", 0, []⟩] : List Object).map Object.path).Nodup ∧
     (([⟨"a", 5, []⟩] : List Object).map Object.path).Nodup ∧ (0 : Int) ≤ 10) ∧
    ((∀ c, c ∈ (GetObjectSliceDiff [⟨"a", 0, []⟩] [⟨"a", 5, []⟩] 10).updated ↔
       (c ∈ ([⟨"a", 5, []⟩] : List Object) ∧ ∃ p ∈ ([⟨"a", 0, []⟩] : List Object),
         p.path = c.path ∧ c.lastModified - p.lastModified > 10)) ∧
    (∀ p ∈ ([⟨"a", 0, []⟩] : List Object), ∀ c ∈ ([⟨"a", 5, []⟩] : List Object),
       c.path = p.path →
       (c.lastModified - p.lastModified ≤ 10 ∨ c.lastModified - p.lastModified ≤ 0) →
       ((∀ x ∈ (GetObjectSliceDiff [⟨"a", 0, []⟩] [⟨"a", 5, []⟩] 10).removed,
           x.path ≠ p.path) ∧
        (∀ x ∈ (GetObjectSliceDiff [⟨"a", 0, []⟩] [⟨"a", 5, []⟩] 10).added,
           x.path ≠ p.path) ∧
        (∀ x ∈ (GetObjectSliceDiff [⟨"a", 0, []⟩] [⟨"a", 5, []⟩] 10).updated,
           x.path ≠ p.path)))) :=
  ⟨⟨by decide, by decide, by decide⟩,
   diff_updated_rule [⟨"a", 0, []⟩] [⟨"a", 5, []⟩] 10 (by decide) (by decide) (by decide)⟩

/-! ## Conditional delivery: C5 -/

theorem resolveHttpStatus_some_some (s : String) (l : Int) :
    resolveHttpStatus (some s) (some l) =
      match contentRangeTotalSize s with
      | some n => if n = l then 200 else 206
      | none => 200 := by
  unfold resolveHttpStatus contentRangeTotalSize
  by_cases h : 0 < s.data.length
  · simp only [h, if_pos]
    rcases hs : splitOnSlash s with _ | ⟨a, _ | ⟨t, rest⟩⟩ <;> simp [hs]
  · have hd : s.data = [] := by
      cases hsd : s.data with
      | nil => rfl
      | cons c cs => rw [hsd] at h; simp at h
    have hsplit : splitOnSlash s = [String.mk []] := by
      unfold splitOnSlash
      rw [hd]
      rfl
    simp [h, hsplit]

/-- **C5.** For every successful conditional HTTP delivery, the resolved
status is `206` exactly when the backend supplied a `Content-Range` header
whose total-size component (the part after the first `/`, space-trimmed)
parses as an integer that differs from the returned `Content-Length`; in
every other successful case the status is `200`. -/
theorem resolve_status_partial_content_iff (cr : Option String) (cl : Option Int) :
    (resolveHttpStatus cr cl = 206 ↔
       ∃ s n l, cr = some s ∧ cl = some l ∧
         contentRangeTotalSize s = some n ∧ n ≠ l) ∧
    (resolveHttpStatus cr cl = 200 ∨ resolveHttpStatus cr cl = 206) := by
  cases cr with
  | none =>
    constructor
    · simp [resolveHttpStatus]
    · left; rfl
  | some s =>
    cases cl with
    | none =>
      constructor
      · unfold resolveHttpStatus
        by_cases h : 0 < s.data.length <;> simp [h]
      · left
        unfold resolveHttpStatus
        by_cases h : 0 < s.data.length <;> simp [h]
    | some l =>
      rw [resolveHttpStatus_some_some]
      cases htot : contentRangeTotalSize s with
      | none =>
        dsimp only
        constructor
        · constructor
          · intro hc; exact absurd hc (by decide)
          · rintro ⟨s2, n, l2, he, hl, htot2, hne⟩
            cases he; cases hl
            rw [htot] at htot2
            exact absurd htot2 (by simp)
        · left; rfl
      | some n =>
        dsimp only
        by_cases hne : n = l
        · constructor
          · simp only [hne, if_pos]
            constructor
            · intro hc; exact absurd hc (by decide)
            · rintro ⟨s2, n2, l2, he, hl, htot2, hne2⟩
              cases he; cases hl
              rw [htot] at htot2
              cases htot2
              exact absurd hne hne2
          · left; simp [hne]
        · constructor
          · simp only [hne, if_neg, not_false_iff]
            exact ⟨fun _ => ⟨s, n, l, rfl, rfl, htot, hne⟩, fun _ => by trivial⟩
          · right; simp [hne]

/-! ## Rename: C2 and C3 -/

/-- **C2.** When `newPath` resolves to an existing object, or a 1-item listing
under `newPath + "/"` finds any object, `RenamePrefixOrObject` fails with
`ErrNewPathNotEmpty` and the bucket contents are exactly what they were:
no copy and no delete is performed, so every object at `path` and at
`newPath` is left untouched. -/
theorem rename_collision_rejected (bPfx path newPath : String) (st : S3State)
    (h : (s3lookup st (cleanPrefix (goJoin2 bPfx newPath))).isSome = true ∨
         0 < countKeysUnder st (cleanPrefix (goJoin2 bPfx newPath) ++ "/")) :
    RenamePrefixOrObject bPfx st path newPath = (st, some .newPathNotEmpty) := by
  unfold RenamePrefixOrObject
  rcases h with h | h
  · simp [h]
  · by_cases h1 : (s3lookup st (cleanPrefix (goJoin2 bPfx newPath))).isSome = true
    · simp [h1]
    · simp [h1, h]

/-- Witness for `rename_collision_rejected`: a store where the rename target
key already exists. -/
theorem rename_collision_rejected_witness :
    ((s3lookup ⟨[("r/new", 7), ("r/old", 3)], fun _ _ => false, fun _ => false⟩
        (cleanPrefix (goJoin2 "r" "new"))).isSome = true ∨
      0 < countKeysUnder ⟨[("r/new", 7), ("r/old", 3)], fun _ _ => false, fun _ => false⟩
        (cleanPrefix (goJoin2 "r" "new") ++ "/")) ∧
    RenamePrefixOrObject "r" ⟨[("r/new", 7), ("r/old", 3)], fun _ _ => false, fun _ => false⟩
        "old" "new" =
      (⟨[("r/new", 7), ("r/old", 3)], fun _ _ => false, fun _ => false⟩,
       some .newPathNotEmpty) :=
  ⟨Or.inl (by rfl),
   rename_collision_rejected "r" "old" "new"
     ⟨[("r/new", 7), ("r/old", 3)], fun _ _ => false, fun _ => false⟩ (Or.inl (by rfl))⟩

theorem find_put (objs : List (String × Int)) (k : String) (v : Int) (q : String) :
    (s3put objs k v).find? (fun kv => kv.1 == q) =
      if q = k then some (k, v) else objs.find? (fun kv => kv.1 == q) := by
  induction objs with
  | nil =>
    by_cases he : q = k
    · simp [s3put, List.find?, he]
    · have hkq : (k == q) = false := by
        simp only [beq_eq_false_iff_ne]
        exact Ne.symm he
      simp [s3put, List.find?, he, hkq]
  | cons a t ih =>
    by_cases hak : a.1 = k
    · have hfa : (a.1 != k) = false := by simp [hak]
      simp only [s3put, List.filter_cons, hfa, Bool.false_eq_true, if_neg,
        not_false_iff] at ih ⊢
      rw [ih]
      by_cases he : q = k
      · simp [he]
      · have haq : (a.1 == q) = false := by
          simp only [beq_eq_false_iff_ne]
          rw [hak]
          exact Ne.symm he
        simp [he, List.find?, haq]
    · have hfa : (a.1 != k) = true := by simp [hak]
      simp only [s3put, List.filter_cons, hfa, if_pos] at ih ⊢
      by_cases haq : a.1 = q
      · rw [haq] at hak
        have haqb : (a.1 == q) = true := by simp [haq]
        simp [List.find?, haqb, hak]
      · have haq2 : (a.1 == q) = false := by simp [haq]
        simp only [List.cons_append, List.find?, haq2]
        exact ih

theorem s3lookup_put (st : S3State) (k : String) (v : Int) (q : String) :
    s3lookup { st with objs := s3put st.objs k v } q =
      if q = k then some v else s3lookup st q := by
  unfold s3lookup
  simp only [find_put]
  by_cases he : q = k <;> simp [he]

/-- **C3.** In the copy-then-delete unit `moveObject`: a failing copy returns
the copy error with the store untouched (nothing is deleted); a successful
copy followed by a failing delete reports the delete error and leaves the
object's payload present at both the old and the new key (the duplication is
not rolled back). -/
theorem moveObject_partial_failure (bPfx path newPath : String) (st : S3State) :
    (st.copyFail path newPath = true →
       moveObject bPfx st path newPath = (st, some (.copyFailed path newPath))) ∧
    (∀ v, st.copyFail path newPath = false → s3lookup st path = some v →
       st.deleteFail (cleanPrefix (goJoin2 bPfx path)) = true →
       ((moveObject bPfx st path newPath).2 =
          some (.deleteFailed (cleanPrefix (goJoin2 bPfx path))) ∧
        s3lookup (moveObject bPfx st path newPath).1 path = some v ∧
        s3lookup (moveObject bPfx st path newPath).1 newPath = some v)) := by
  constructor
  · intro hcf
    unfold moveObject copyObjectClient
    simp [hcf]
  · intro v hcf hsrc hdf
    have hmove : moveObject bPfx st path newPath =
        ({ st with objs := s3put st.objs newPath v },
         some (.deleteFailed (cleanPrefix (goJoin2 bPfx path)))) := by
      unfold moveObject copyObjectClient DeleteObject
      simp [hcf, hsrc, hdf]
    rw [hmove]
    refine ⟨rfl, ?_, ?_⟩
    · show s3lookup { st with objs := s3put st.objs newPath v } path = some v
      rw [s3lookup_put]
      by_cases he : path = newPath
      · simp [he]
      · simp [he, hsrc]
    · show s3lookup { st with objs := s3put st.objs newPath v } newPath = some v
      rw [s3lookup_put]
      simp

/-- Witness for `moveObject_partial_failure`: a store with one object and a
delete fault injected on every key — the copy succeeds, the delete fails, and
the payload ends up at both keys. -/
theorem moveObject_partial_failure_witness :
    (moveObject "" ⟨[("a", 5)], fun _ _ => false, fun _ => true⟩ "a" "b").2 =
      some (.deleteFailed (cleanPrefix (goJoin2 "" "a"))) ∧
    s3lookup (moveObject "" ⟨[("a", 5)], fun _ _ => false, fun _ => true⟩ "a" "b").1 "a" =
      some 5 ∧
    s3lookup (moveObject "" ⟨[("a", 5)], fun _ _ => false, fun _ => true⟩ "a" "b").1 "b" =
      some 5 :=
  (moveObject_partial_failure "" "a" "b"
    ⟨[("a", 5)], fun _ _ => false, fun _ => true⟩).2 5 rfl rfl rfl

/-! ## Reduction lemmas for the two pagers

A page whose `nextPageCalled`/`isEOF` flags are literal booleans reduces
definitionally, which gives clean equations for the three states of the
cursor machine (already advanced / exhausted / running a listing). -/

theorem localNextPage_marked (p2 : String) (r2 : List DirEntry) (li2 : Int)
    (f2 d2 : List Metadata) (e2 : Bool) :
    localNextPage ⟨p2, r2, li2, f2, d2, true, e2⟩ =
      ((none, some .doubleAdvance), ⟨p2, r2, li2, f2, d2, true, e2⟩) := rfl

theorem localNextPage_exhausted (p2 : String) (r2 : List DirEntry) (li2 : Int)
    (f2 d2 : List Metadata) :
    localNextPage ⟨p2, r2, li2, f2, d2, false, true⟩ =
      ((some ⟨p2, r2, li2, [], [], false, true⟩, some .eof),
       ⟨p2, r2, li2, f2, d2, false, true⟩) := rfl

theorem localNextPage_run (p2 : String) (r2 : List DirEntry) (li2 : Int)
    (f2 d2 : List Metadata) :
    localNextPage ⟨p2, r2, li2, f2, d2, false, false⟩ =
      ((some ⟨p2, (readDir r2 li2).2.2, li2,
             ((readDir r2 li2).1.filter (fun e => !e.isDir)).map
               (fun e => ⟨goJoin2 p2 e.name, 0⟩),
             ((readDir r2 li2).1.filter (fun e => e.isDir)).map
               (fun e => ⟨goJoin2 p2 e.name, 0⟩),
             false,
             (decide (0 < li2) && (readDir r2 li2).2.1 == some .eof) ||
               (decide (li2 ≤ 0) && (readDir r2 li2).2.1 == none)⟩,
        if ((decide (0 < li2) && (readDir r2 li2).2.1 == some .eof) ||
            (decide (li2 ≤ 0) && (readDir r2 li2).2.1 == none)) &&
           (readDir r2 li2).2.1 == none
        then some StErr.eof else (readDir r2 li2).2.1),
       ⟨p2, r2, li2, f2, d2, true, false⟩) := rfl

theorem s3NextPage_marked (client : S3Client) (b bp p : String) (li : Int)
    (f d : List Metadata) (e2 : Bool) (ct : String) :
    s3NextPage client ⟨b, bp, p, li, f, d, true, e2, ct⟩ =
      ((none, some .doubleAdvance), ⟨b, bp, p, li, f, d, true, e2, ct⟩) := rfl

theorem s3NextPage_exhausted (client : S3Client) (b bp p : String) (li : Int)
    (f d : List Metadata) (ct : String) :
    s3NextPage client ⟨b, bp, p, li, f, d, false, true, ct⟩ =
      ((some ⟨b, bp, p, li, [], [], false, true, ""⟩, some .eof),
       ⟨b, bp, p, li, f, d, false, true, ct⟩) := rfl

theorem s3NextPage_run (client : S3Client) (b bp p : String) (li : Int)
    (f d : List Metadata) (ct : String) :
    s3NextPage client ⟨b, bp, p, li, f, d, false, false, ct⟩ =
      (match client (s3PageRequest ⟨b, bp, p, li, f, d, false, false, ct⟩) with
       | .error e => ((none, some e), ⟨b, bp, p, li, f, d, false, false, ct⟩)
       | .ok output =>
         ((some ⟨b, bp, p, li,
                output.contents.filterMap (s3FileEntry bp),
                output.commonPrefixes.filterMap (s3DirEntry bp),
                false,
                (match output.isTruncated with | some tr => !tr | none => true),
                (match output.nextContinuationToken with | some t => t | none => "")⟩,
           if (match output.isTruncated with | some tr => !tr | none => true)
           then some StErr.eof else none),
          ⟨b, bp, p, li, f, d, true, false, ct⟩)) := rfl

theorem s3NextPage_run_ok (client : S3Client) (b bp p : String) (li : Int)
    (f d : List Metadata) (ct : String) (output : ListV2Output)
    (hc : client (s3PageRequest ⟨b, bp, p, li, f, d, false, false, ct⟩) = .ok output) :
    s3NextPage client ⟨b, bp, p, li, f, d, false, false, ct⟩ =
      ((some ⟨b, bp, p, li,
             output.contents.filterMap (s3FileEntry bp),
             output.commonPrefixes.filterMap (s3DirEntry bp),
             false,
             (match output.isTruncated with | some tr => !tr | none => true),
             (match output.nextContinuationToken with | some t => t | none => "")⟩,
        if (match output.isTruncated with | some tr => !tr | none => true)
        then some StErr.eof else none),
       ⟨b, bp, p, li, f, d, true, false, ct⟩) := by
  rw [s3NextPage_run, hc]

theorem s3NextPage_run_err (client : S3Client) (b bp p : String) (li : Int)
    (f d : List Metadata) (ct : String) (e : StErr)
    (hc : client (s3PageRequest ⟨b, bp, p, li, f, d, false, false, ct⟩) = .error e) :
    s3NextPage client ⟨b, bp, p, li, f, d, false, false, ct⟩ =
      ((none, some e), ⟨b, bp, p, li, f, d, false, false, ct⟩) := by
  rw [s3NextPage_run, hc]

theorem readDir_err_eof {r2 : List DirEntry} {li : Int} {e : StErr}
    (h : (readDir r2 li).2.1 = some e) : e = StErr.eof := by
  unfold readDir at h
  split at h
  · split at h
    · simp only at h
      cases h
      rfl
    · simp at h
  · simp at h
/-! ## Directory listing on an object: C4 -/

/-- **C4 (amended).** When the listing path resolves to an existing single
object, `ListObjectsFromDirectory` fails before any listing request: the S3
backend with the sentinel `ErrPrefixIsAnObject`, the local backend with its
own `errors.New("prefix is not a directory")` value (a *different* error
value, not the PrefixIsAnObject kind).  For S3 the conclusion holds for every
listing client, which is the formal sense of "before any listing request is
attempted". -/
theorem list_dir_on_object_errors
    (head : String → HeadOutcome) (bucket bPfx pfx : String) (limit : Int)
    (fs : LocalFS) (root lpfx : String) (llimit : Int)
    (hS3 : head (cleanPrefix (goJoin2 bPfx pfx)) = .found)
    (hFile : fsExists fs (goJoin2 root lpfx) = true)
    (hNotDir : fsIsDir fs (goJoin2 root lpfx) = false) :
    (∀ client : S3Client,
       s3ListObjectsFromDirectory head client bucket bPfx pfx limit =
         (none, some .prefixIsAnObject)) ∧
    localListObjectsFromDirectory fs root lpfx llimit = (none, some .notADirectory) := by
  constructor
  · intro client
    unfold s3ListObjectsFromDirectory
    simp only [hS3]
  · unfold localListObjectsFromDirectory
    simp only [hFile, hNotDir, Bool.not_true, Bool.not_false, Bool.false_eq_true,
      if_neg, not_false_iff, if_pos]

/-- Counterexample to **C4** as stated: the local backend's failure on a path
that is an existing file is not the `PrefixIsAnObject` kind. -/
theorem list_dir_on_object_errors_cex :
    (localListObjectsFromDirectory ⟨["r/x"], []⟩ "r" "x" 3).2 =
      some .notADirectory ∧
    StErr.notADirectory ≠ StErr.prefixIsAnObject := ⟨rfl, by decide⟩

/-- Witness for `list_dir_on_object_errors`. -/
theorem list_dir_on_object_errors_witness :
    ((fun _ : String => HeadOutcome.found) (cleanPrefix (goJoin2 "" "p")) =
       HeadOutcome.found ∧
     fsExists ⟨["q/y"], []⟩ (goJoin2 "q" "y") = true ∧
     fsIsDir ⟨["q/y"], []⟩ (goJoin2 "q" "y") = false) ∧
    ((∀ client : S3Client,
        s3ListObjectsFromDirectory (fun _ => HeadOutcome.found) client "b" "" "p" 4 =
          (none, some .prefixIsAnObject)) ∧
     localListObjectsFromDirectory ⟨["q/y"], []⟩ "q" "y" 4 =
       (none, some .notADirectory)) :=
  ⟨⟨rfl, rfl, rfl⟩,
   list_dir_on_object_errors (fun _ => HeadOutcome.found) "b" "" "p" 4
     ⟨["q/y"], []⟩ "q" "y" 4 rfl rfl rfl⟩

/-! ## The single-use page: C6 -/

/-- **C6 (amended).** A page that actually ran a listing (it was not already
exhausted and, for S3, the listing request succeeded) is marked, and a second
`NextPage` on that same instance fails with the double-advance error and
yields no successor page.  An already-exhausted page, however, is never
marked: every `NextPage` call on it returns a fresh empty exhausted page
together with the EOF sentinel, not the double-advance failure. -/
theorem next_page_single_use
    (l : LocalPage) (s : S3Page) (client : S3Client) (out : ListV2Output)
    (le : LocalPage) (se : S3Page)
    (hl1 : l.nextPageCalled = false) (hl2 : l.isEOF = false)
    (hs1 : s.nextPageCalled = false) (hs2 : s.isEOF = false)
    (hcl : client (s3PageRequest s) = .ok out)
    (hle1 : le.nextPageCalled = false) (hle2 : le.isEOF = true)
    (hse1 : se.nextPageCalled = false) (hse2 : se.isEOF = true) :
    ((localNextPage l).2 = { l with nextPageCalled := true } ∧
     (localNextPage { l with nextPageCalled := true }).1 =
       (none, some .doubleAdvance)) ∧
    ((s3NextPage client s).2 = { s with nextPageCalled := true } ∧
     ∀ client2, (s3NextPage client2 { s with nextPageCalled := true }).1 =
       (none, some .doubleAdvance)) ∧
    (localNextPage le =
      ((some { pfx := le.pfx, remaining := le.remaining, limit := le.limit,
               filesRead := [], directoriesRead := [],
               nextPageCalled := false, isEOF := true }, some .eof), le)) ∧
    (s3NextPage client se =
      ((some { bucket := se.bucket, bPfx := se.bPfx, pfx := se.pfx,
               limit := se.limit, filesRead := [], directoriesRead := [],
               nextPageCalled := false, isEOF := true, continuationToken := "" },
        some .eof), se)) := by
  obtain ⟨lp, lr, ll, lf, ld, ln, le2⟩ := l
  obtain ⟨sb, sbp, sp, sl, sf, sd, sn, sE, sct⟩ := s
  obtain ⟨ep, er, el, ef, ed, en, ee⟩ := le
  obtain ⟨tb, tbp, tp, tl, tf, td, tn, tE, tct⟩ := se
  simp only at hl1 hl2 hs1 hs2 hle1 hle2 hse1 hse2
  subst hl1; subst hl2; subst hs1; subst hs2
  subst hle1; subst hle2; subst hse1; subst hse2
  refine ⟨⟨rfl, rfl⟩, ⟨?_, fun client2 => rfl⟩, rfl, rfl⟩
  rw [s3NextPage_run, hcl]

/-- Counterexample to **C6** as stated: on an already-exhausted page the
second `NextPage` call still yields a successor page and the EOF sentinel,
not the double-advance failure. -/
theorem next_page_single_use_cex :
    (localNextPage (localNextPage ⟨"p", [], 1, [], [], false, true⟩).2).1 =
      (some ⟨"p", [], 1, [], [], false, true⟩, some .eof) ∧
    some StErr.eof ≠ some StErr.doubleAdvance := ⟨rfl, by decide⟩

/-- Witness for `next_page_single_use`. -/
theorem next_page_single_use_witness :
    ((⟨"p", [⟨"f", false⟩], 0, [], [], false, false⟩ : LocalPage).nextPageCalled = false ∧
     (⟨"b", "", "pre", 5, [], [], false, false, ""⟩ : S3Page).nextPageCalled = false ∧
     (fun _ : ListV2Input =>
         (Except.ok ⟨[], [], some false, none⟩ : Except StErr ListV2Output))
       (s3PageRequest ⟨"b", "", "pre", 5, [], [], false, false, ""⟩) =
         .ok ⟨[], [], some false, none⟩) ∧
    (((localNextPage ⟨"p", [⟨"f", false⟩], 0, [], [], false, false⟩).2 =
        { (⟨"p", [⟨"f", false⟩], 0, [], [], false, false⟩ : LocalPage) with
          nextPageCalled := true } ∧
      (localNextPage { (⟨"p", [⟨"f", false⟩], 0, [], [], false, false⟩ : LocalPage) with
          nextPageCalled := true }).1 = (none, some .doubleAdvance)) ∧
     ((s3NextPage (fun _ => .ok ⟨[], [], some false, none⟩)
         ⟨"b", "", "pre", 5, [], [], false, false, ""⟩).2 =
        { (⟨"b", "", "pre", 5, [], [], false, false, ""⟩ : S3Page) with
          nextPageCalled := true } ∧
      ∀ client2, (s3NextPage client2
         { (⟨"b", "", "pre", 5, [], [], false, false, ""⟩ : S3Page) with
           nextPageCalled := true }).1 = (none, some .doubleAdvance)) ∧
     (localNextPage ⟨"q", [⟨"g", true⟩], 2, [], [], false, true⟩ =
       ((some { pfx := "q", remaining := [⟨"g", true⟩], limit := 2,
                filesRead := [], directoriesRead := [],
                nextPageCalled := false, isEOF := true }, some .eof),
        ⟨"q", [⟨"g", true⟩], 2, [], [], false, true⟩)) ∧
     (s3NextPage (fun _ => .ok ⟨[], [], some false, none⟩)
        ⟨"c", "rp", "zz", 7, [], [], false, true, "t"⟩ =
       ((some { bucket := "c", bPfx := "rp", pfx := "zz", limit := 7,
                filesRead := [], directoriesRead := [],
                nextPageCalled := false, isEOF := true, continuationToken := "" },
         some .eof),
        ⟨"c", "rp", "zz", 7, [], [], false, true, "t"⟩))) :=
  ⟨⟨rfl, rfl, rfl⟩,
   next_page_single_use
     ⟨"p", [⟨"f", false⟩], 0, [], [], false, false⟩
     ⟨"b", "", "pre", 5, [], [], false, false, ""⟩
     (fun _ => .ok ⟨[], [], some false, none⟩) ⟨[], [], some false, none⟩
     ⟨"q", [⟨"g", true⟩], 2, [], [], false, true⟩
     ⟨"c", "rp", "zz", 7, [], [], false, true, "t"⟩
     rfl rfl rfl rfl rfl rfl rfl rfl rfl⟩

/-! ## The EOF sentinel on final pages: C10 -/

theorem localNextPage_final_eof (l2 : LocalPage) :
    ∀ pg, ((localNextPage l2).1).1 = some pg → pg.isEOF = true →
      ((localNextPage l2).1).2 = some .eof := by
  obtain ⟨p2, r2, li2, f2, d2, n2, e2⟩ := l2
  cases n2 with
  | true =>
    intro pg hpg
    rw [localNextPage_marked] at hpg
    simp at hpg
  | false =>
    cases e2 with
    | true => intro pg hpg hEOF; rfl
    | false =>
      intro pg hpg hEOF
      rw [localNextPage_run] at hpg ⊢
      simp only [Option.some.injEq] at hpg
      rw [← hpg] at hEOF
      simp only at hEOF
      cases hrd : (readDir r2 li2).2.1 with
      | none =>
        rw [hrd] at hEOF
        simp only [hrd, hEOF]
        rfl
      | some e =>
        have he := readDir_err_eof hrd
        subst he
        simp only [hrd]
        have hf : ((some StErr.eof == (none : Option StErr)) : Bool) = false := rfl
        rw [hf, Bool.and_false]
        rfl

theorem s3NextPage_final_eof (client : S3Client) (s2 : S3Page) :
    ∀ pg, ((s3NextPage client s2).1).1 = some pg → pg.isEOF = true →
      ((s3NextPage client s2).1).2 = some .eof := by
  obtain ⟨b, bp, p, li, f, d, n2, e2, ct⟩ := s2
  cases n2 with
  | true =>
    intro pg hpg
    rw [s3NextPage_marked] at hpg
    simp at hpg
  | false =>
    cases e2 with
    | true => intro pg hpg hEOF; rfl
    | false =>
      intro pg hpg hEOF
      cases hc : client (s3PageRequest ⟨b, bp, p, li, f, d, false, false, ct⟩) with
      | error e =>
        rw [s3NextPage_run_err client b bp p li f d ct e hc] at hpg
        exact Option.noConfusion hpg
      | ok output =>
        rw [s3NextPage_run_ok client b bp p li f d ct output hc] at hpg ⊢
        dsimp only at hpg ⊢
        simp only [Option.some.injEq] at hpg
        subst hpg
        dsimp only at hEOF
        exact if_pos hEOF

/-- **C10 (amended).** Whenever `NextPage` (either backend) returns a page
whose `IsTruncated()` is false, the accompanying error is the non-nil
`io.EOF` sentinel; the same holds for the page `ListObjectsFromDirectory`
returns — with one exception: the local `ListObjectsFromDirectory` on a
nonexistent path returns an exhausted empty page with a *nil* error. -/
theorem final_page_eof (l : LocalPage) (s : S3Page) (client : S3Client)
    (head : String → HeadOutcome) (bucket bPfx spfx : String) (slimit : Int)
    (fs : LocalFS) (root pfx : String) (limit : Int) :
    (∀ pg, ((localNextPage l).1).1 = some pg → pg.isEOF = true →
       ((localNextPage l).1).2 = some .eof) ∧
    (∀ pg, ((s3NextPage client s).1).1 = some pg → pg.isEOF = true →
       ((s3NextPage client s).1).2 = some .eof) ∧
    (∀ pg, (s3ListObjectsFromDirectory head client bucket bPfx spfx slimit).1 =
        some pg → pg.isEOF = true →
       (s3ListObjectsFromDirectory head client bucket bPfx spfx slimit).2 =
        some .eof) ∧
    (fsExists fs (goJoin2 root pfx) = false →
      localListObjectsFromDirectory fs root pfx limit =
        (some ⟨pfx, [], limit, [], [], false, true⟩, none)) ∧
    (fsIsDir fs (goJoin2 root pfx) = true →
      ∀ pg, (localListObjectsFromDirectory fs root pfx limit).1 = some pg →
        pg.isEOF = true →
        (localListObjectsFromDirectory fs root pfx limit).2 = some .eof) := by
  refine ⟨localNextPage_final_eof l, s3NextPage_final_eof client s, ?_, ?_, ?_⟩
  · intro pg hpg hEOF
    unfold s3ListObjectsFromDirectory at hpg ⊢
    cases hh : head (cleanPrefix (goJoin2 bPfx spfx)) with
    | found =>
      simp only [hh] at hpg
      simp at hpg
    | awsErr code =>
      simp only [hh] at hpg ⊢
      by_cases hcode : code = "NotFound"
      · simp only [hcode, if_pos] at hpg ⊢
        exact s3NextPage_final_eof client _ pg hpg hEOF
      · simp only [hcode, if_neg, not_false_iff] at hpg
        simp at hpg
    | plainErr =>
      simp only [hh] at hpg ⊢
      exact s3NextPage_final_eof client _ pg hpg hEOF
  · intro hne
    unfold localListObjectsFromDirectory
    simp only [hne, Bool.not_false, if_pos]
  · intro hdir pg hpg hEOF
    have hex : fsExists fs (goJoin2 root pfx) = true := by
      unfold fsExists
      rw [hdir]
      simp
    unfold localListObjectsFromDirectory at hpg ⊢
    simp only [hex, hdir, Bool.not_true, Bool.false_eq_true, if_neg,
      not_false_iff] at hpg ⊢
    exact localNextPage_final_eof _ pg hpg hEOF

/-- Counterexample to **C10** as stated: the local backend's listing of a
nonexistent path returns a final page (`IsTruncated()` false) with a *nil*
error, not the `io.EOF` sentinel. -/
theorem final_page_eof_cex :
    (localListObjectsFromDirectory ⟨[], []⟩ "r" "x" 3).1 =
      some ⟨"x", [], 3, [], [], false, true⟩ ∧
    (⟨"x", [], 3, [], [], false, true⟩ : LocalPage).isEOF = true ∧
    (localListObjectsFromDirectory ⟨[], []⟩ "r" "x" 3).2 = none :=
  ⟨rfl, rfl, rfl⟩

/-- Witness for `final_page_eof`: the exhausted-empty-page exception at a
concrete missing path. -/
theorem final_page_eof_witness :
    fsExists ⟨[], []⟩ (goJoin2 "q" "z") = false ∧
    localListObjectsFromDirectory ⟨[], []⟩ "q" "z" 7 =
      (some ⟨"z", [], 7, [], [], false, true⟩, none) :=
  ⟨rfl,
   (final_page_eof ⟨"p", [], 1, [], [], false, false⟩
      ⟨"b", "", "s", 1, [], [], false, false, ""⟩
      (fun _ => .error .notImplemented) (fun _ => .plainErr) "b" "" "s" 1
      ⟨[], []⟩ "q" "z" 7).2.2.2.1 rfl⟩

/-! ## Page entry shape: C8 -/

theorem s3DirEntry_some {bp : String} {d : Option String} {m : Metadata}
    (h : s3DirEntry bp d = some m) :
    ∃ dp, d = some dp ∧ dp ≠ "" ∧
      m.path = ensureLeadingSlash (removePrefixFromObjectPath bp dp) ∧
      m.path ≠ "" ∧ m.path ≠ "/" ∧ m.lastModified = 0 := by
  cases d with
  | none => simp [s3DirEntry] at h
  | some dp =>
    unfold s3DirEntry at h
    by_cases h1 : dp = ""
    · simp [h1] at h
    · simp only [h1, if_neg, not_false_iff] at h
      by_cases h2 : ensureLeadingSlash (removePrefixFromObjectPath bp dp) = "" ∨
          ensureLeadingSlash (removePrefixFromObjectPath bp dp) = "/"
      · simp [h2] at h
      · simp only [h2, if_neg, not_false_iff, Option.some.injEq] at h
        push_neg at h2
        subst h
        exact ⟨dp, rfl, h1, rfl, h2.1, h2.2, rfl⟩

theorem s3FileEntry_some {bp : String} {en : ListV2Entry} {m : Metadata}
    (h : s3FileEntry bp en = some m) :
    ∃ k, en.key = some k ∧ k ≠ "" ∧
      m.path = ensureLeadingSlash (removePrefixFromObjectPath bp k) ∧
      m.path ≠ "" ∧ m.path ≠ "/" ∧
      m.lastModified = (match en.lastModified with | some t => t | none => 0) := by
  cases hk : en.key with
  | none => simp [s3FileEntry, hk] at h
  | some k =>
    unfold s3FileEntry at h
    rw [hk] at h
    by_cases h1 : k = ""
    · simp [h1] at h
    · simp only [h1, if_neg, not_false_iff] at h
      by_cases h2 : ensureLeadingSlash (removePrefixFromObjectPath bp k) = "" ∨
          ensureLeadingSlash (removePrefixFromObjectPath bp k) = "/"
      · simp [h2] at h
      · simp only [h2, if_neg, not_false_iff, Option.some.injEq] at h
        push_neg at h2
        subst h
        exact ⟨k, rfl, h1, rfl, h2.1, h2.2, rfl⟩

/-- **C8 (amended).** A page produced by a successful S3 listing holds as
`directories` exactly the non-nil, non-empty `CommonPrefixes` with the
backend root stripped and a leading `/` ensured — S3's trailing separator is
*retained*, not normalized away — and as `files` the `Contents` entries
treated the same way (with a missing `LastModified` defaulted to zero); an
entry is dropped only when its adjusted path is empty or `"/"` (the pager
never applies `isValidLeaf`).  A local page holds the read batch's entries
joined to the page prefix, split into directories and files by entry type,
with nothing dropped. -/
theorem page_entry_shape (client : S3Client) (s : S3Page) (out : ListV2Output)
    (l : LocalPage)
    (hs1 : s.nextPageCalled = false) (hs2 : s.isEOF = false)
    (hcl : client (s3PageRequest s) = .ok out)
    (hl1 : l.nextPageCalled = false) (hl2 : l.isEOF = false) :
    (∀ pg, ((s3NextPage client s).1).1 = some pg →
       (pg.directoriesRead = out.commonPrefixes.filterMap (s3DirEntry s.bPfx) ∧
        pg.filesRead = out.contents.filterMap (s3FileEntry s.bPfx) ∧
        (∀ m ∈ pg.directoriesRead, ∃ dp, some dp ∈ out.commonPrefixes ∧ dp ≠ "" ∧
           m.path = ensureLeadingSlash (removePrefixFromObjectPath s.bPfx dp) ∧
           m.path ≠ "" ∧ m.path ≠ "/" ∧ m.lastModified = 0) ∧
        (∀ m ∈ pg.filesRead, ∃ en ∈ out.contents, ∃ k, en.key = some k ∧ k ≠ "" ∧
           m.path = ensureLeadingSlash (removePrefixFromObjectPath s.bPfx k) ∧
           m.path ≠ "" ∧ m.path ≠ "/" ∧
           m.lastModified = (match en.lastModified with | some t => t | none => 0)))) ∧
    (∀ pg, ((localNextPage l).1).1 = some pg →
       (pg.directoriesRead =
          ((readDir l.remaining l.limit).1.filter (fun e => e.isDir)).map
            (fun e => ⟨goJoin2 l.pfx e.name, 0⟩) ∧
        pg.filesRead =
          ((readDir l.remaining l.limit).1.filter (fun e => !e.isDir)).map
            (fun e => ⟨goJoin2 l.pfx e.name, 0⟩))) := by
  obtain ⟨b, bp, p, li, f, d, n2, e2, ct⟩ := s
  obtain ⟨lp, lr, ll, lf, ld, ln, le2⟩ := l
  simp only at hs1 hs2 hl1 hl2
  subst hs1; subst hs2; subst hl1; subst hl2
  constructor
  · intro pg hpg
    rw [s3NextPage_run_ok client b bp p li f d ct out hcl] at hpg
    dsimp only at hpg
    simp only [Option.some.injEq] at hpg
    subst hpg
    refine ⟨rfl, rfl, ?_, ?_⟩
    · intro m hm
      dsimp only at hm
      rw [List.mem_filterMap] at hm
      obtain ⟨dopt, hmem, hde⟩ := hm
      obtain ⟨dp, hd, hne, hpath, hp1, hp2, hlm⟩ := s3DirEntry_some hde
      exact ⟨dp, hd ▸ hmem, hne, hpath, hp1, hp2, hlm⟩
    · intro m hm
      dsimp only at hm
      rw [List.mem_filterMap] at hm
      obtain ⟨en, hmem, hfe⟩ := hm
      obtain ⟨k, hk, hne, hpath, hp1, hp2, hlm⟩ := s3FileEntry_some hfe
      exact ⟨en, hmem, k, hk, hne, hpath, hp1, hp2, hlm⟩
  · intro pg hpg
    rw [localNextPage_run] at hpg
    dsimp only at hpg
    simp only [Option.some.injEq] at hpg
    subst hpg
    exact ⟨rfl, rfl⟩

/-- Counterexample to **C8** as stated: a common prefix `pre/x/` yields the
directory entry `/pre/x/` — it ends in the separator (not "normalized to end
without a trailing separator") and fails `isValidLeaf` (its path contains
`/`), yet it is kept on the page. -/
theorem page_entry_shape_cex :
    ((((s3NextPage (fun _ => Except.ok ⟨[], [some "pre/x/"], some false, none⟩)
        ⟨"b", "", "pre", 10, [], [], false, false, ""⟩).1).1).map
          (fun pg => pg.directoriesRead)) = some [⟨"/pre/x/", 0⟩] ∧
    ("/pre/x/" : String).data.getLast? = some '/' ∧
    objectPathIsInvalid "/pre/x/" = true := ⟨rfl, rfl, rfl⟩

/-- Witness for `page_entry_shape`. -/
theorem page_entry_shape_witness :
    ((⟨"b", "", "pre", 2, [], [], false, false, ""⟩ : S3Page).nextPageCalled = false ∧
     (fun _ : ListV2Input =>
         (Except.ok ⟨[⟨some "pre/f", some 4⟩], [some "pre/d/"], some true, some "tok"⟩ :
           Except StErr ListV2Output))
       (s3PageRequest ⟨"b", "", "pre", 2, [], [], false, false, ""⟩) =
         .ok ⟨[⟨some "pre/f", some 4⟩], [some "pre/d/"], some true, some "tok"⟩ ∧
     (⟨"p", [⟨"e", true⟩], 0, [], [], false, false⟩ : LocalPage).nextPageCalled = false) ∧
    ((∀ pg, ((s3NextPage
          (fun _ => .ok ⟨[⟨some "pre/f", some 4⟩], [some "pre/d/"], some true, some "tok"⟩)
          ⟨"b", "", "pre", 2, [], [], false, false, ""⟩).1).1 = some pg →
       (pg.directoriesRead =
          ([some "pre/d/"] : List (Option String)).filterMap (s3DirEntry "") ∧
        pg.filesRead =
          ([⟨some "pre/f", some 4⟩] : List ListV2Entry).filterMap (s3FileEntry "") ∧
        (∀ m ∈ pg.directoriesRead, ∃ dp,
           some dp ∈ ([some "pre/d/"] : List (Option String)) ∧ dp ≠ "" ∧
           m.path = ensureLeadingSlash (removePrefixFromObjectPath "" dp) ∧
           m.path ≠ "" ∧ m.path ≠ "/" ∧ m.lastModified = 0) ∧
        (∀ m ∈ pg.filesRead, ∃ en ∈ ([⟨some "pre/f", some 4⟩] : List ListV2Entry),
           ∃ k, en.key = some k ∧ k ≠ "" ∧
           m.path = ensureLeadingSlash (removePrefixFromObjectPath "" k) ∧
           m.path ≠ "" ∧ m.path ≠ "/" ∧
           m.lastModified = (match en.lastModified with | some t => t | none => 0)))) ∧
     (∀ pg, ((localNextPage ⟨"p", [⟨"e", true⟩], 0, [], [], false, false⟩).1).1 =
          some pg →
       (pg.directoriesRead =
          ((readDir [⟨"e", true⟩] 0).1.filter (fun e => e.isDir)).map
            (fun e => ⟨goJoin2 "p" e.name, 0⟩) ∧
        pg.filesRead =
          ((readDir [⟨"e", true⟩] 0).1.filter (fun e => !e.isDir)).map
            (fun e => ⟨goJoin2 "p" e.name, 0⟩)))) :=
  ⟨⟨rfl, rfl, rfl⟩,
   page_entry_shape
     (fun _ => .ok ⟨[⟨some "pre/f", some 4⟩], [some "pre/d/"], some true, some "tok"⟩)
     ⟨"b", "", "pre", 2, [], [], false, false, ""⟩
     ⟨[⟨some "pre/f", some 4⟩], [some "pre/d/"], some true, some "tok"⟩
     ⟨"p", [⟨"e", true⟩], 0, [], [], false, false⟩
     rfl rfl rfl rfl rfl⟩

/-! ## Path normalization round-trip: C7

All reasoning happens on character lists.  A *plain segment* is a non-empty
segment that is not `.` or `..` and contains no separator; the amended claim
quantifies over paths that are `/`-joins of plain segments. -/

/-- A plain path segment: non-empty, not `.` or `..`, no separator. -/
def plainSeg (s : List Char) : Bool :=
  !s.isEmpty && !(s == ['.']) && !(s == ['.', '.']) && !s.any (· == '/')

def plainSegStr (s : String) : Bool := plainSeg s.data

/-- The `/`-join of a list of segments, as a `String`. -/
def joinSegs (l : List String) : String := String.mk (segsToChars (l.map String.data))

theorem plainSeg_ne_nil {s : List Char} (h : plainSeg s = true) : s ≠ [] := by
  unfold plainSeg at h
  simp only [Bool.and_eq_true, Bool.not_eq_true'] at h
  intro he
  rw [he] at h
  simp at h

theorem plainSeg_ne_dot {s : List Char} (h : plainSeg s = true) : s ≠ ['.'] := by
  unfold plainSeg at h
  simp only [Bool.and_eq_true, Bool.not_eq_true'] at h
  intro he
  rw [he] at h
  simp at h

theorem plainSeg_ne_dotdot {s : List Char} (h : plainSeg s = true) : s ≠ ['.', '.'] := by
  unfold plainSeg at h
  simp only [Bool.and_eq_true, Bool.not_eq_true'] at h
  intro he
  rw [he] at h
  simp at h

theorem plainSeg_no_slash {s : List Char} (h : plainSeg s = true) :
    ∀ c ∈ s, c ≠ '/' := by
  unfold plainSeg at h
  simp only [Bool.and_eq_true, Bool.not_eq_true'] at h
  intro c hc he
  have := h.2
  rw [List.any_eq_false] at this
  have := this c hc
  simp [he] at this

theorem head?_append_left {α : Type} (s t : List α) (h : s ≠ []) :
    (s ++ t).head? = s.head? := by
  cases s with
  | nil => exact absurd rfl h
  | cons a r => rfl

theorem getLast?_append_right {α : Type} (s t : List α) (h : t ≠ []) :
    (s ++ t).getLast? = t.getLast? := by
  rw [List.getLast?_append]
  cases ht : t.getLast? with
  | none =>
    rw [List.getLast?_eq_none_iff] at ht
    exact absurd ht h
  | some a => rfl

theorem mem_of_head?_eq {α : Type} {l : List α} {a : α} (h : l.head? = some a) :
    a ∈ l := by
  cases l with
  | nil => simp at h
  | cons x r =>
    simp only [List.head?_cons, Option.some.injEq] at h
    rw [← h]
    exact List.mem_cons_self x r

theorem mem_of_getLast?_eq {α : Type} {l : List α} {a : α} (h : l.getLast? = some a) :
    a ∈ l := by
  induction l with
  | nil => simp at h
  | cons x r ih =>
    cases r with
    | nil =>
      simp only [List.getLast?_singleton, Option.some.injEq] at h
      rw [← h]
      exact List.mem_cons_self x []
    | cons y t =>
      rw [List.getLast?_cons_cons] at h
      exact List.mem_cons_of_mem x (ih h)

theorem segsToChars_cons_ne_nil (s : List Char) (rest : List (List Char))
    (h : s ≠ []) : segsToChars (s :: rest) ≠ [] := by
  cases rest with
  | nil => simpa [segsToChars] using h
  | cons s2 r =>
    show s ++ '/' :: segsToChars (s2 :: r) ≠ []
    simp

theorem segsToChars_head (s : List Char) (rest : List (List Char)) (h : s ≠ []) :
    (segsToChars (s :: rest)).head? = s.head? := by
  cases rest with
  | nil => rfl
  | cons s2 r =>
    show (s ++ '/' :: segsToChars (s2 :: r)).head? = s.head?
    exact head?_append_left s _ h

theorem segsToChars_last (segs : List (List Char)) (hne : segs ≠ [])
    (h : ∀ s ∈ segs, s ≠ []) :
    ∃ s ∈ segs, (segsToChars segs).getLast? = s.getLast? := by
  induction segs with
  | nil => exact absurd rfl hne
  | cons s rest ih =>
    cases rest with
    | nil => exact ⟨s, List.mem_cons_self s [], rfl⟩
    | cons s2 r =>
      obtain ⟨t, ht, he⟩ := ih (by simp) (fun x hx => h x (List.mem_cons_of_mem s hx))
      refine ⟨t, List.mem_cons_of_mem s ht, ?_⟩
      show (s ++ '/' :: segsToChars (s2 :: r)).getLast? = t.getLast?
      rw [getLast?_append_right s _ (by simp)]
      cases hT : segsToChars (s2 :: r) with
      | nil => exact absurd hT (segsToChars_cons_ne_nil s2 r (h s2 (by simp)))
      | cons z zs =>
        rw [List.getLast?_cons_cons]
        rw [hT] at he
        exact he

theorem splitChars_cons_slash (cs : List Char) :
    splitChars ('/' :: cs) = [] :: splitChars cs := rfl

theorem splitChars_cons_ne (c : Char) (cs : List Char) (h : c ≠ '/') :
    splitChars (c :: cs) =
      match splitChars cs with
      | [] => [[c]]
      | s :: rest => (c :: s) :: rest := by
  conv_lhs => rw [splitChars]
  rw [if_neg h]

theorem splitChars_no_slash (s : List Char) (h : ∀ c ∈ s, c ≠ '/') :
    splitChars s = [s] := by
  induction s with
  | nil => rfl
  | cons c r ih =>
    have hc : c ≠ '/' := h c (List.mem_cons_self c r)
    have hr := ih (fun x hx => h x (List.mem_cons_of_mem c hx))
    rw [splitChars_cons_ne c r hc, hr]

theorem splitChars_append_slash (s t : List Char) (h : ∀ c ∈ s, c ≠ '/') :
    splitChars (s ++ '/' :: t) = s :: splitChars t := by
  induction s with
  | nil => exact splitChars_cons_slash t
  | cons c r ih =>
    have hc : c ≠ '/' := h c (List.mem_cons_self c r)
    have hr := ih (fun x hx => h x (List.mem_cons_of_mem c hx))
    show splitChars (c :: (r ++ '/' :: t)) = (c :: r) :: splitChars t
    rw [splitChars_cons_ne c _ hc, hr]

theorem splitChars_segsToChars (segs : List (List Char)) (hne : segs ≠ [])
    (h : ∀ s ∈ segs, ∀ c ∈ s, c ≠ '/') :
    splitChars (segsToChars segs) = segs := by
  induction segs with
  | nil => exact absurd rfl hne
  | cons s rest ih =>
    cases rest with
    | nil =>
      show splitChars (segsToChars [s]) = [s]
      exact splitChars_no_slash s (h s (List.mem_cons_self s []))
    | cons s2 r =>
      show splitChars (s ++ '/' :: segsToChars (s2 :: r)) = s :: s2 :: r
      rw [splitChars_append_slash s _ (h s (List.mem_cons_self s _))]
      rw [ih (by simp) (fun x hx => h x (List.mem_cons_of_mem s hx))]

theorem foldl_cleanStep_plain (rooted : Bool) (segs : List (List Char))
    (h : ∀ s ∈ segs, plainSeg s = true) :
    ∀ acc, segs.foldl (cleanStepChars rooted) acc = segs.reverse ++ acc := by
  induction segs with
  | nil => intro acc; rfl
  | cons s rest ih =>
    intro acc
    have hs := h s (List.mem_cons_self s rest)
    have hstep : cleanStepChars rooted acc s = s :: acc := by
      unfold cleanStepChars
      rw [if_neg (by
        push_neg
        exact ⟨plainSeg_ne_nil hs, plainSeg_ne_dot hs⟩)]
      rw [if_neg (plainSeg_ne_dotdot hs)]
    rw [List.foldl_cons, hstep, ih (fun x hx => h x (List.mem_cons_of_mem s hx))]
    simp

theorem cleanChars_plain_join (segs : List (List Char)) (hne : segs ≠ [])
    (h : ∀ s ∈ segs, plainSeg s = true) :
    cleanChars (segsToChars segs) = segsToChars segs := by
  obtain ⟨s0, rest, rfl⟩ : ∃ s0 rest, segs = s0 :: rest := by
    cases segs with
    | nil => exact absurd rfl hne
    | cons a b => exact ⟨a, b, rfl⟩
  have h0 : s0 ≠ [] := plainSeg_ne_nil (h s0 (List.mem_cons_self s0 rest))
  have hnn : segsToChars (s0 :: rest) ≠ [] := segsToChars_cons_ne_nil s0 rest h0
  have hhead : (segsToChars (s0 :: rest)).head? ≠ some '/' := by
    rw [segsToChars_head s0 rest h0]
    intro hc
    exact plainSeg_no_slash (h s0 (List.mem_cons_self s0 rest)) '/'
      (mem_of_head?_eq hc) rfl
  unfold cleanChars
  rw [if_neg hnn]
  have hrooted : (match segsToChars (s0 :: rest) with
      | c :: _ => c == '/' | [] => false) = false := by
    cases hl : segsToChars (s0 :: rest) with
    | nil => exact absurd hl hnn
    | cons c r =>
      rw [hl] at hhead
      simp only [List.head?_cons, ne_eq, Option.some.injEq] at hhead
      simpa using hhead
  dsimp only
  rw [hrooted]
  rw [splitChars_segsToChars _ hne (fun s hs => plainSeg_no_slash (h s hs))]
  rw [foldl_cleanStep_plain false _ h []]
  rw [List.append_nil, List.reverse_reverse]
  rw [if_neg (by simp : ¬ (false = true))]
  rw [if_neg hnn]

theorem trimSlashes_id (l : List Char) (h1 : l.head? ≠ some '/')
    (h2 : l.getLast? ≠ some '/') : trimSlashesChars l = l := by
  unfold trimSlashesChars
  have hd : l.dropWhile (· == '/') = l := by
    cases l with
    | nil => rfl
    | cons c r =>
      simp only [List.head?_cons, ne_eq, Option.some.injEq] at h1
      rw [List.dropWhile_cons, if_neg (by simpa using h1)]
  rw [hd]
  have hrev : l.reverse.dropWhile (· == '/') = l.reverse := by
    cases hl : l.reverse with
    | nil => rfl
    | cons c r =>
      have : l.getLast? = some c := by
        rw [← List.head?_reverse, hl, List.head?_cons]
      rw [List.dropWhile_cons, if_neg (by
        simp only [beq_iff_eq]
        intro he
        rw [he] at this
        exact h2 this)]
  rw [hrev, List.reverse_reverse]

theorem segsToChars_append (xs ys : List (List Char)) (hx : xs ≠ []) (hy : ys ≠ []) :
    segsToChars (xs ++ ys) = segsToChars xs ++ '/' :: segsToChars ys := by
  induction xs with
  | nil => exact absurd rfl hx
  | cons x rest ih =>
    cases rest with
    | nil =>
      cases ys with
      | nil => exact absurd rfl hy
      | cons y t =>
        show segsToChars (x :: y :: t) = x ++ '/' :: segsToChars (y :: t)
        rfl
    | cons x2 r =>
      show segsToChars (x :: ((x2 :: r) ++ ys)) =
        (x ++ '/' :: segsToChars (x2 :: r)) ++ '/' :: segsToChars ys
      rw [List.cons_append]
      rw [show segsToChars (x :: x2 :: (r ++ ys)) =
            x ++ '/' :: segsToChars (x2 :: (r ++ ys)) from rfl]
      rw [← List.cons_append, ih (by simp)]
      simp

theorem leadsChars_append (a b c : List Char) :
    leadsChars (a ++ b) (a ++ c) = leadsChars b c := by
  induction a with
  | nil => rfl
  | cons x r ih =>
    show (x == x && leadsChars (r ++ b) (r ++ c)) = leadsChars b c
    rw [beq_self_eq_true, Bool.true_and, ih]

theorem goJoinChars_cons_nil (rest : List (List Char)) :
    goJoinChars ([] :: rest) = goJoinChars rest := rfl

theorem goJoinChars_cons_ne (e : List Char) (rest : List (List Char)) (h : e ≠ []) :
    goJoinChars (e :: rest) = cleanChars (segsToChars (e :: rest)) := by
  conv_lhs => rw [goJoinChars]
  rw [if_neg h]

theorem removePrefix_chars (Rc rest2 : List Char) (hR : Rc ≠ [])
    (hlast : Rc.getLast? ≠ some '/') :
    removePrefixFromObjectPath (String.mk Rc) (String.mk (Rc ++ '/' :: rest2)) =
      String.mk rest2 := by
  unfold removePrefixFromObjectPath
  dsimp only
  rw [if_neg hR, if_neg hlast]
  have hlead : leadsChars (Rc ++ ['/']) (Rc ++ '/' :: rest2) = true := by
    have h2 := leadsChars_append Rc ['/'] ('/' :: rest2)
    rw [h2]
    rfl
  rw [if_pos hlead]
  have hsp : Rc ++ '/' :: rest2 = (Rc ++ ['/']) ++ rest2 := by
    rw [List.append_assoc]
    rfl
  rw [hsp, List.drop_left]

/-- The round trip at character level: for a root that is a (possibly empty)
`/`-join of plain segments and a relative path that is a non-empty such join,
stripping the root off the cleaned join returns the path, and `path.Clean`
fixes the path. -/
theorem roundtrip_chars (rsC psC : List (List Char)) (hps : psC ≠ [])
    (hr : ∀ s ∈ rsC, plainSeg s = true) (hp : ∀ s ∈ psC, plainSeg s = true) :
    removePrefixFromObjectPath (String.mk (segsToChars rsC))
        (cleanPrefix (goJoin2 (String.mk (segsToChars rsC))
          (String.mk (segsToChars psC)))) =
      clean (String.mk (segsToChars psC)) ∧
    clean (String.mk (segsToChars psC)) = String.mk (segsToChars psC) := by
  have hPnn : segsToChars psC ≠ [] := by
    cases psC with
    | nil => exact absurd rfl hps
    | cons q rest =>
      exact segsToChars_cons_ne_nil q rest (plainSeg_ne_nil (hp q (by simp)))
  have hPhead : (segsToChars psC).head? ≠ some '/' := by
    cases psC with
    | nil => exact absurd rfl hps
    | cons q rest =>
      have hq : plainSeg q = true := hp q (by simp)
      rw [segsToChars_head q rest (plainSeg_ne_nil hq)]
      intro hc
      exact plainSeg_no_slash hq '/' (mem_of_head?_eq hc) rfl
  have hPlast : (segsToChars psC).getLast? ≠ some '/' := by
    obtain ⟨t, ht, he⟩ := segsToChars_last psC hps
      (fun s hs => plainSeg_ne_nil (hp s hs))
    rw [he]
    intro hc
    exact plainSeg_no_slash (hp t ht) '/' (mem_of_getLast?_eq hc) rfl
  have hcleanP : cleanChars (segsToChars psC) = segsToChars psC :=
    cleanChars_plain_join psC hps hp
  have hconj2 : clean (String.mk (segsToChars psC)) = String.mk (segsToChars psC) := by
    show String.mk (cleanChars (segsToChars psC)) = String.mk (segsToChars psC)
    rw [hcleanP]
  refine ⟨?_, hconj2⟩
  cases rsC with
  | nil =>
    have hg : goJoin2 (String.mk (segsToChars []))
        (String.mk (segsToChars psC)) = String.mk (segsToChars psC) := by
      show String.mk (goJoinChars [[], segsToChars psC]) = String.mk (segsToChars psC)
      rw [goJoinChars_cons_nil, goJoinChars_cons_ne _ [] hPnn]
      rw [show segsToChars [segsToChars psC] = segsToChars psC from rfl]
      rw [hcleanP]
    rw [hg]
    have hcp : cleanPrefix (String.mk (segsToChars psC)) =
        String.mk (segsToChars psC) := by
      show String.mk (trimSlashesChars (segsToChars psC)) = String.mk (segsToChars psC)
      rw [trimSlashes_id _ hPhead hPlast]
    rw [hcp]
    rw [show removePrefixFromObjectPath (String.mk (segsToChars []))
          (String.mk (segsToChars psC)) = String.mk (segsToChars psC) from rfl]
    exact hconj2.symm
  | cons r0 rrest =>
    have hr0 : plainSeg r0 = true := hr r0 (by simp)
    have hRnn : segsToChars (r0 :: rrest) ≠ [] :=
      segsToChars_cons_ne_nil r0 rrest (plainSeg_ne_nil hr0)
    have hRhead : (segsToChars (r0 :: rrest)).head? ≠ some '/' := by
      rw [segsToChars_head r0 rrest (plainSeg_ne_nil hr0)]
      intro hc
      exact plainSeg_no_slash hr0 '/' (mem_of_head?_eq hc) rfl
    have hRlast : (segsToChars (r0 :: rrest)).getLast? ≠ some '/' := by
      obtain ⟨t, ht, he⟩ := segsToChars_last (r0 :: rrest) (by simp)
        (fun s hs => plainSeg_ne_nil (hr s hs))
      rw [he]
      intro hc
      exact plainSeg_no_slash (hr t ht) '/' (mem_of_getLast?_eq hc) rfl
    have happ : segsToChars ((r0 :: rrest) ++ psC) =
        segsToChars (r0 :: rrest) ++ '/' :: segsToChars psC :=
      segsToChars_append _ _ (by simp) hps
    have hplainA : ∀ s ∈ (r0 :: rrest) ++ psC, plainSeg s = true := by
      intro s hs
      rcases List.mem_append.mp hs with h1 | h1
      exacts [hr s h1, hp s h1]
    have hcleanA : cleanChars (segsToChars ((r0 :: rrest) ++ psC)) =
        segsToChars ((r0 :: rrest) ++ psC) :=
      cleanChars_plain_join _ (by simp) hplainA
    have hg : goJoin2 (String.mk (segsToChars (r0 :: rrest)))
        (String.mk (segsToChars psC)) =
        String.mk (segsToChars (r0 :: rrest) ++ '/' :: segsToChars psC) := by
      show String.mk (goJoinChars [segsToChars (r0 :: rrest), segsToChars psC]) = _
      rw [goJoinChars_cons_ne _ _ hRnn]
      rw [show segsToChars [segsToChars (r0 :: rrest), segsToChars psC] =
            segsToChars (r0 :: rrest) ++ '/' :: segsToChars psC from rfl]
      rw [← happ, hcleanA, happ]
    rw [hg]
    have hhead2 : (segsToChars (r0 :: rrest) ++ '/' :: segsToChars psC).head? ≠
        some '/' := by
      rw [head?_append_left _ _ hRnn]
      exact hRhead
    have hlast2 : (segsToChars (r0 :: rrest) ++ '/' :: segsToChars psC).getLast? ≠
        some '/' := by
      rw [getLast?_append_right _ _ (by simp)]
      cases hP2 : segsToChars psC with
      | nil => exact absurd hP2 hPnn
      | cons q qs =>
        rw [List.getLast?_cons_cons]
        rw [hP2] at hPlast
        exact hPlast
    have hcp : cleanPrefix
        (String.mk (segsToChars (r0 :: rrest) ++ '/' :: segsToChars psC)) =
        String.mk (segsToChars (r0 :: rrest) ++ '/' :: segsToChars psC) := by
      show String.mk (trimSlashesChars _) = _
      rw [trimSlashes_id _ hhead2 hlast2]
    rw [hcp]
    rw [removePrefix_chars (segsToChars (r0 :: rrest)) (segsToChars psC) hRnn hRlast]
    exact hconj2.symm

/-- **C7 (amended).** For every root prefix and relative path that are
`/`-joins of plain segments (non-empty, not `.` or `..`, no separator; the
root may be the empty join, the path has at least one segment),
`relativize(r, normalize(r, p)) = clean(p) = p`, where `normalize` is
`cleanPrefix` + `path.Join` as the backends perform it and `relativize` is
`removePrefixFromObjectPath`.  Outside this fragment the round trip fails
(see the counterexample). -/
theorem path_roundtrip (rs ps : List String) (hps : ps ≠ [])
    (hr : ∀ s ∈ rs, plainSegStr s = true) (hp : ∀ s ∈ ps, plainSegStr s = true) :
    removePrefixFromObjectPath (joinSegs rs)
        (cleanPrefix (goJoin2 (joinSegs rs) (joinSegs ps))) =
      clean (joinSegs ps) ∧
    clean (joinSegs ps) = joinSegs ps := by
  have hps2 : ps.map String.data ≠ [] := by simpa using hps
  have hr2 : ∀ s ∈ rs.map String.data, plainSeg s = true := by
    intro s hs
    rw [List.mem_map] at hs
    obtain ⟨x, hx, rfl⟩ := hs
    exact hr x hx
  have hp2 : ∀ s ∈ ps.map String.data, plainSeg s = true := by
    intro s hs
    rw [List.mem_map] at hs
    obtain ⟨x, hx, rfl⟩ := hs
    exact hp x hx
  exact roundtrip_chars (rs.map String.data) (ps.map String.data) hps2 hr2 hp2

/-- Counterexample to **C7** as stated: at root `"a"` and relative path `""`,
`relativize(r, normalize(r, p))` is `"a"` while `clean(p)` is `"."`. -/
theorem path_roundtrip_cex :
    removePrefixFromObjectPath "a" (cleanPrefix (goJoin2 "a" "")) = "a" ∧
    clean "" = "." ∧ ("a" : String) ≠ ("." : String) := ⟨by decide, by decide, by decide⟩

/-- Witness for `path_roundtrip` at root `r/s` and path `a/b`. -/
theorem path_roundtrip_witness :
    ((["a", "b"] : List String) ≠ [] ∧
     (∀ s ∈ (["r", "s"] : List String), plainSegStr s = true) ∧
     (∀ s ∈ (["a", "b"] : List String), plainSegStr s = true)) ∧
    (removePrefixFromObjectPath (joinSegs ["r", "s"])
        (cleanPrefix (goJoin2 (joinSegs ["r", "s"]) (joinSegs ["a", "b"]))) =
      clean (joinSegs ["a", "b"]) ∧
     clean (joinSegs ["a", "b"]) = joinSegs ["a", "b"]) :=
  ⟨⟨by decide, by decide, by decide⟩,
   path_roundtrip ["r", "s"] ["a", "b"] (by decide) (by decide) (by decide)⟩

end Storage
